import Mathlib

/-!
Shallow embedding of the stock-data pipeline core
(`src/technical_indicators.py` and `src/monthly_aggregator.py`).

Prices are modelled as rationals (`ℚ`); the arithmetic of the Python code
is exact term-by-term, so `ℚ` captures the recurrences and aggregations.
Missing values (pandas `NaN` produced by empty resample bins) are modelled
with `Option`. Fallible functions return `Except String`, mirroring the
exceptions pandas raises for invalid rolling windows.
-/

namespace Stock

/-! ### Averaging engine (`technical_indicators.py`) -/

/-- Mean of the trailing `min (i+1) w` values of `s` ending at index `i`.
This is `series.rolling(window=w, min_periods=1).mean()` evaluated at `i`,
as used by `calculate_sma` (line 22) and by the `sma_initial` seed series
of `calculate_ema` (line 49). -/
def rollingMeanAt (s : List ℚ) (w : Nat) (i : Nat) : ℚ :=
  let xs := (s.take (i + 1)).drop (i + 1 - w)
  xs.sum / (xs.length : ℚ)

/-- Whole-series rolling mean: the pure core of `calculate_sma`. -/
def smaList (s : List ℚ) (w : Nat) : List ℚ :=
  (List.range s.length).map (rollingMeanAt s w)

/-- Embedding of `calculate_sma(series, window)` (lines 9-22).
`series.rolling(window=window, min_periods=1)` raises `ValueError` for a
negative window and for `window = 0` (since `min_periods = 1 > 0`);
otherwise the rolling mean with `min_periods=1` is returned. -/
def calculate_sma (s : List ℚ) (w : Int) : Except String (List ℚ) :=
  if w < 0 then .error "ValueError: window must be an integer 0 or greater"
  else if w = 0 then .error "ValueError: min_periods 1 must be <= window 0"
  else .ok (smaList s w.toNat)

/-- Value of the EMA loop of `calculate_ema` (lines 53-64) at index `i`,
for window `w ≥ 1` and smoothing factor `alpha`:
raw pass-through below `w - 1`, rolling-mean seed at `w - 1`, and the
recurrence `(price - prev) * alpha + prev` above it. -/
def emaVal (s : List ℚ) (w : Nat) (alpha : ℚ) : Nat → ℚ
  | 0 => if 0 < w - 1 then s.getD 0 0 else rollingMeanAt s w 0
  | i + 1 =>
    if i + 1 < w - 1 then s.getD (i + 1) 0
    else if i + 1 = w - 1 then rollingMeanAt s w (i + 1)
    else (s.getD (i + 1) 0 - emaVal s w alpha i) * alpha + emaVal s w alpha i

/-- Whole-series EMA: the pure core of `calculate_ema`. -/
def emaList (s : List ℚ) (w : Nat) (alpha : ℚ) : List ℚ :=
  (List.range s.length).map (emaVal s w alpha)

/-- Embedding of `calculate_ema(series, window)` (lines 25-66).
The Python code first computes `alpha = 2.0 / (window + 1.0)`, which raises
`ZeroDivisionError` when `window = -1`; then
`series.rolling(window=window, min_periods=1)` raises `ValueError` for any
other non-positive window; otherwise the seeded EMA loop runs. -/
def calculate_ema (s : List ℚ) (w : Int) : Except String (List ℚ) :=
  if w = -1 then .error "ZeroDivisionError: float division by zero"
  else if w < 0 then .error "ValueError: window must be an integer 0 or greater"
  else if w = 0 then .error "ValueError: min_periods 1 must be <= window 0"
  else .ok (emaList s w.toNat (2 / ((w : ℚ) + 1)))

/-! ### Calendar dates -/

/-- Calendar date, the `date` index of the pandas frames. -/
@[ext]
structure Date where
  year : Nat
  month : Nat
  day : Nat
deriving DecidableEq, Repr, Inhabited

/-- Strict chronological order on dates (lexicographic year, month, day). -/
def dateLt (a b : Date) : Prop :=
  a.year < b.year ∨
    (a.year = b.year ∧
      (a.month < b.month ∨ (a.month = b.month ∧ a.day < b.day)))

/-- Chronological order on dates, non-strict in the last component. -/
def dateLe (a b : Date) : Prop :=
  a.year < b.year ∨
    (a.year = b.year ∧
      (a.month < b.month ∨ (a.month = b.month ∧ a.day ≤ b.day)))

instance (a b : Date) : Decidable (dateLt a b) := by
  unfold dateLt; infer_instance

instance (a b : Date) : Decidable (dateLe a b) := by
  unfold dateLe; infer_instance

/-- Linear index of a calendar month, identifying the `(year, month)`
partition key of the monthly resample. -/
def monthIdx (d : Date) : Nat := d.year * 12 + (d.month - 1)

/-- Number of days of a month in the Gregorian calendar, as used by pandas
to label `ME` (month-end) resample bins. -/
def daysInMonth (y m : Nat) : Nat :=
  if m = 2 then (if (y % 4 = 0 ∧ y % 100 ≠ 0) ∨ y % 400 = 0 then 29 else 28)
  else if m = 4 ∨ m = 6 ∨ m = 9 ∨ m = 11 then 30 else 31

/-- Month-end date labelling the resample bin of month index `k`. -/
def monthEndDate (k : Nat) : Date :=
  ⟨k / 12, k % 12 + 1, daysInMonth (k / 12) (k % 12 + 1)⟩

/-- Month is in the 1..12 range, as produced by real timestamp parsing. -/
def validMonth (d : Date) : Prop := 1 ≤ d.month ∧ d.month ≤ 12

instance (d : Date) : Decidable (validMonth d) := by
  unfold validMonth; infer_instance

/-! ### Monthly aggregation (`monthly_aggregator.py`) -/

/-- Input row of `aggregate_monthly_ohlc`: one daily record of the frame
with columns ticker, open, high, low, close, adjclose, volume, indexed by
date. Pandas floats are modelled as `ℚ`. -/
structure DailyRow where
  ticker : String
  date : Date
  open_ : ℚ
  high : ℚ
  low : ℚ
  close : ℚ
  adjclose : ℚ
  volume : Int
deriving DecidableEq, Repr, Inhabited

/-- Row of the aggregated monthly frame. The OHLC and adjclose columns are
`Option ℚ` because `resample('ME')` emits a bin for every calendar month
between a group's first and last dates, and an empty bin aggregates to
`NaN` for first/last/max/min (while `sum` of an empty bin is `0`). -/
structure AggRow where
  ticker : String
  date : Date
  open_ : Option ℚ
  high : Option ℚ
  low : Option ℚ
  close : Option ℚ
  adjclose : Option ℚ
  volume : Int
deriving DecidableEq, Repr, Inhabited

/-- Aggregation of one `(ticker, month)` resample bin, from the `agg` dict
of lines 29-36: open = first, high = max, low = min, close = last,
adjclose = last, volume = sum. An empty bin gives `NaN` (here `none`) for
every aggregate except the sum, which is `0`. -/
def binAgg (t : String) (k : Nat) : List DailyRow → AggRow
  | [] =>
    { ticker := t, date := monthEndDate k, open_ := none, high := none,
      low := none, close := none, adjclose := none, volume := 0 }
  | h :: rest =>
    let lastRow := (h :: rest).getLast (List.cons_ne_nil h rest)
    { ticker := t
      date := monthEndDate k
      open_ := some h.open_
      high := some (rest.foldl (fun a r => max a r.high) h.high)
      low := some (rest.foldl (fun a r => min a r.low) h.low)
      close := some lastRow.close
      adjclose := some lastRow.adjclose
      volume := (h :: rest).foldl (fun a r => a + r.volume) 0 }

/-- Distinct tickers of the frame in ascending order: `groupby('ticker')`
sorts its group keys. -/
def tickersOf (df : List DailyRow) : List String :=
  List.insertionSort (· ≤ ·) (df.map (fun r => r.ticker)).dedup

/-- Month indices of the `ME` resample bins of one ticker group: every
calendar month from the group's earliest month to its latest, inclusive,
in ascending order. -/
def monthSpan (g : List DailyRow) : List Nat :=
  match g with
  | [] => []
  | h :: rest =>
    let lo := rest.foldl (fun a r => min a (monthIdx r.date)) (monthIdx h.date)
    let hi := rest.foldl (fun a r => max a (monthIdx r.date)) (monthIdx h.date)
    List.range' lo (hi + 1 - lo)

/-- Monthly frame before the `dropna` of line 45: for each ticker group in
sorted key order, one `AggRow` per resample bin of its month span, months
ascending. This is `df.groupby('ticker').resample('ME').agg(...)` of
lines 29-42 with the index reset. -/
def aggregatePreDrop (df : List DailyRow) : List AggRow :=
  (tickersOf df).flatMap (fun t =>
    let g := df.filter (fun r => r.ticker == t)
    (monthSpan g).map (fun k =>
      binAgg t k (g.filter (fun r => monthIdx r.date == k))))

/-- Row has no missing value in the `dropna` subset
`['open', 'high', 'low', 'close']`. -/
def complete (r : AggRow) : Bool :=
  r.open_.isSome && r.high.isSome && r.low.isSome && r.close.isSome

/-- Embedding of `aggregate_monthly_ohlc(df)` (lines 9-47): the grouped
monthly resample followed by
`dropna(subset=['open', 'high', 'low', 'close'])`. -/
def aggregate_monthly_ohlc (df : List DailyRow) : List AggRow :=
  (aggregatePreDrop df).filter complete

/-! ### Indicator annotation (`add_technical_indicators`) -/

/-- Row of a single-instrument monthly frame passed to
`add_technical_indicators`: the aggregated columns, all present. -/
structure MonthlyRow where
  ticker : String
  date : Date
  open_ : ℚ
  high : ℚ
  low : ℚ
  close : ℚ
  adjclose : ℚ
  volume : Int
deriving DecidableEq, Repr, Inhabited

/-- Monthly row together with the four indicator columns added by
`add_technical_indicators`. -/
structure AnnRow extends MonthlyRow where
  SMA_10 : ℚ
  SMA_20 : ℚ
  EMA_10 : ℚ
  EMA_20 : ℚ
deriving DecidableEq, Repr, Inhabited

/-- Date order on monthly rows, the sort key of `df.sort_index()`. -/
def rowLe (a b : MonthlyRow) : Prop := dateLe a.date b.date

instance (a b : MonthlyRow) : Decidable (rowLe a b) := by
  unfold rowLe; infer_instance

/-- Embedding of `df.sort_index()` on the monthly frame: stable sort by
date. -/
def sortByDate (l : List MonthlyRow) : List MonthlyRow :=
  List.insertionSort rowLe l

/-- Embedding of `add_technical_indicators(df)` (lines 69-92): copy, sort
by date, then attach `SMA_10`, `SMA_20`, `EMA_10`, `EMA_20` computed from
the close column with `calculate_sma`/`calculate_ema` at windows 10 and
20 (both positive, so the rolling validation passes and the `.ok` payload
is taken). -/
def add_technical_indicators (df : List MonthlyRow) : List AnnRow :=
  let d := sortByDate df
  let closes := d.map (fun r => r.close)
  let s10 := smaList closes 10
  let s20 := smaList closes 20
  let e10 := emaList closes 10 (2 / (10 + 1))
  let e20 := emaList closes 20 (2 / (20 + 1))
  (List.range d.length).map (fun i =>
    { toMonthlyRow := d.getD i default
      SMA_10 := s10.getD i 0
      SMA_20 := s20.getD i 0
      EMA_10 := e10.getD i 0
      EMA_20 := e20.getD i 0 })

/-! ### Helper lemmas -/

theorem getD_map_range {f : Nat → ℚ} {n i : Nat} (h : i < n) :
    ((List.range n).map f).getD i 0 = f i := by
  rw [List.getD_eq_getElem _ _ (by simpa using h)]
  simp

theorem length_smaList (s : List ℚ) (w : Nat) :
    (smaList s w).length = s.length := by
  simp [smaList]

theorem length_emaList (s : List ℚ) (w : Nat) (alpha : ℚ) :
    (emaList s w alpha).length = s.length := by
  simp [emaList]

theorem emaVal_low {s : List ℚ} {w : Nat} {alpha : ℚ} {i : Nat}
    (h : i < w - 1) : emaVal s w alpha i = s.getD i 0 := by
  cases i with
  | zero => simp [emaVal, h]
  | succ j => simp [emaVal, h]

/-! ### Claims about the averaging engine -/

/-- C1: for every window `W > 0` and input `S`, `calculate_ema S W`
succeeds with an output of the same length as `S` satisfying the
pass-through branch below index `W - 1`, the simple-average seed at
`W - 1`, and the recurrence with `alpha = 2 / (W + 1)` above it. -/
theorem C1_calculate_ema_spec (S : List ℚ) (W : Int) (hW : 0 < W) :
    ∃ out, calculate_ema S W = .ok out ∧
      out.length = S.length ∧
      ∀ i, i < S.length →
        (((i : Int) < W - 1 → out.getD i 0 = S.getD i 0) ∧
         ((i : Int) = W - 1 →
            out.getD i 0 = (S.take W.toNat).sum / (W : ℚ)) ∧
         ((i : Int) > W - 1 →
            out.getD i 0 =
              (S.getD i 0 - out.getD (i - 1) 0) * (2 / ((W : ℚ) + 1)) +
                out.getD (i - 1) 0)) := by
  have hne : W ≠ -1 := by omega
  have hnlt : ¬ W < 0 := by omega
  have hne0 : W ≠ 0 := by omega
  refine ⟨emaList S W.toNat (2 / ((W : ℚ) + 1)), ?_, ?_, ?_⟩
  · simp [calculate_ema, hne, hnlt, hne0]
  · exact length_emaList _ _ _
  · intro i hi
    have hout : ∀ j, j < S.length →
        (emaList S W.toNat (2 / ((W : ℚ) + 1))).getD j 0 =
          emaVal S W.toNat (2 / ((W : ℚ) + 1)) j := by
      intro j hj
      exact getD_map_range hj
    refine ⟨?_, ?_, ?_⟩
    · intro hlt
      have hlt' : i < W.toNat - 1 := by omega
      rw [hout i hi, emaVal_low hlt']
    · intro heq
      have heq' : i = W.toNat - 1 := by omega
      have hW1 : W.toNat = i + 1 := by omega
      rw [hout i hi]
      have : emaVal S W.toNat (2 / ((W : ℚ) + 1)) i = rollingMeanAt S W.toNat i := by
        cases i with
        | zero => simp [emaVal, heq'.symm]
        | succ j =>
          have h1 : ¬ (j + 1 < W.toNat - 1) := by omega
          have h2 : j + 1 = W.toNat - 1 := heq'.symm ▸ rfl
          simp [emaVal, h1, h2]
      rw [this, rollingMeanAt]
      have hdrop : i + 1 - W.toNat = 0 := by omega
      have htake : (S.take (i + 1)).length = i + 1 := by
        rw [List.length_take]; omega
      rw [hdrop, List.drop_zero, htake, hW1.symm]
      have h := Int.toNat_of_nonneg (le_of_lt hW)
      have hcast : ((W.toNat : ℚ)) = (W : ℚ) := by exact_mod_cast h
      rw [hcast]
    · intro hgt
      have hi1 : 1 ≤ i := by omega
      obtain ⟨j, rfl⟩ : ∃ j, i = j + 1 := ⟨i - 1, by omega⟩
      have h1 : ¬ (j + 1 < W.toNat - 1) := by omega
      have h2 : ¬ (j + 1 = W.toNat - 1) := by omega
      rw [hout _ hi, hout _ (by omega : j + 1 - 1 < S.length)]
      simp only [emaVal, h1, h2, if_false, Nat.add_sub_cancel]

/-- C2: for every window `W > 0` and input `S`, `calculate_sma S W`
succeeds with an output of the same length as `S`; the output at `i` is
the mean of the trailing `min (i+1) W` inputs ending at `i` (a growing
window for the first `W - 1` indices, never undefined), and for
`i ≥ W - 1` it is the mean of the `W`-element slice `S[i-W+1..i]`. -/
theorem C2_calculate_sma_spec (S : List ℚ) (W : Int) (hW : 0 < W) :
    ∃ out, calculate_sma S W = .ok out ∧
      out.length = S.length ∧
      ∀ i, i < S.length →
        (((S.take (i + 1)).drop (i + 1 - W.toNat)).length
            = min (i + 1) W.toNat ∧
         out.getD i 0 =
            ((S.take (i + 1)).drop (i + 1 - W.toNat)).sum /
              ((min (i + 1) W.toNat : Nat) : ℚ) ∧
         (W - 1 ≤ (i : Int) →
            out.getD i 0 =
              ((S.drop (i + 1 - W.toNat)).take W.toNat).sum / (W : ℚ))) := by
  have hnlt : ¬ W < 0 := by omega
  have hne0 : W ≠ 0 := by omega
  refine ⟨smaList S W.toNat, ?_, length_smaList _ _, ?_⟩
  · simp [calculate_sma, hnlt, hne0]
  · intro i hi
    have hlen : ((S.take (i + 1)).drop (i + 1 - W.toNat)).length
        = min (i + 1) W.toNat := by
      rw [List.length_drop, List.length_take]; omega
    refine ⟨hlen, ?_, ?_⟩
    · rw [smaList, getD_map_range hi, rollingMeanAt]
      rw [hlen]
    · intro hge
      have hW1 : W.toNat ≤ i + 1 := by omega
      rw [smaList, getD_map_range hi, rollingMeanAt]
      have heq : (S.take (i + 1)).drop (i + 1 - W.toNat)
          = (S.drop (i + 1 - W.toNat)).take W.toNat := by
        rw [List.drop_take]
        congr 1
        omega
      rw [heq] at hlen ⊢
      rw [hlen]
      have h1 : min (i + 1) W.toNat = W.toNat := by omega
      have h2 := Int.toNat_of_nonneg (le_of_lt hW)
      have hcast : ((min (i + 1) W.toNat : Nat) : ℚ) = (W : ℚ) := by
        rw [h1]; exact_mod_cast h2
      rw [hcast]

/-- C4: for every input `S` and every window `W ≤ 0`, both
`calculate_sma S W` and `calculate_ema S W` return an error and never a
result. -/
theorem C4_nonpositive_window_errors (S : List ℚ) (W : Int) (hW : W ≤ 0) :
    (∃ e, calculate_sma S W = .error e) ∧
      (∃ e, calculate_ema S W = .error e) := by
  constructor
  · rcases lt_or_eq_of_le hW with h | h
    · exact ⟨"ValueError: window must be an integer 0 or greater",
        by simp [calculate_sma, h]⟩
    · exact ⟨"ValueError: min_periods 1 must be <= window 0",
        by simp [calculate_sma, h, not_lt_of_ge (le_of_eq h.symm)]⟩
  · by_cases h1 : W = -1
    · exact ⟨"ZeroDivisionError: float division by zero",
        by simp [calculate_ema, h1]⟩
    · rcases lt_or_eq_of_le hW with h | h
      · exact ⟨"ValueError: window must be an integer 0 or greater",
          by simp [calculate_ema, h1, h]⟩
      · exact ⟨"ValueError: min_periods 1 must be <= window 0",
          by simp [calculate_ema, h1, h, not_lt_of_ge (le_of_eq h.symm)]⟩

/-- C4 witness: at `W = 0` and `S = [1]` both functions error. -/
theorem C4_witness :
    (∃ e, calculate_sma [(1 : ℚ)] 0 = .error e) ∧
      (∃ e, calculate_ema [(1 : ℚ)] 0 = .error e) :=
  C4_nonpositive_window_errors [(1 : ℚ)] 0 (by decide)

/-- C10: for every window `W > 0` and input of length at most `W - 1`,
`calculate_ema` returns the input unchanged: every index takes the raw
pass-through branch; in particular the empty list maps to the empty
list. -/
theorem C10_calculate_ema_short_input (S : List ℚ) (W : Int) (hW : 0 < W)
    (hlen : S.length ≤ W.toNat - 1) : calculate_ema S W = .ok S := by
  have hne : W ≠ -1 := by omega
  have hnlt : ¬ W < 0 := by omega
  have hne0 : W ≠ 0 := by omega
  simp only [calculate_ema, if_neg hne, if_neg hnlt, if_neg hne0]
  congr 1
  apply List.ext_getElem
  · exact length_emaList _ _ _
  · intro i h1 h2
    have hi : i < S.length := h2
    have hlow : i < W.toNat - 1 := by omega
    have : (emaList S W.toNat (2 / ((W : ℚ) + 1))).getD i 0
        = emaVal S W.toNat (2 / ((W : ℚ) + 1)) i := getD_map_range hi
    rw [List.getD_eq_getElem _ _ h1] at this
    rw [this, emaVal_low hlow, List.getD_eq_getElem _ _ hi]

/-- C10 witness: a two-element list with window 5 passes through. -/
theorem C10_witness : calculate_ema [(1 : ℚ), 2] 5 = .ok [(1 : ℚ), 2] :=
  C10_calculate_ema_short_input [(1 : ℚ), 2] 5 (by decide) (by decide)

/-- C1 witness: instantiated at `S = [1, 2, 3]`, `W = 2`. -/
theorem C1_witness :
    ∃ out, calculate_ema [(1 : ℚ), 2, 3] 2 = .ok out ∧
      out.length = ([(1 : ℚ), 2, 3] : List ℚ).length ∧
      ∀ i, i < ([(1 : ℚ), 2, 3] : List ℚ).length →
        (((i : Int) < 2 - 1 →
            out.getD i 0 = ([(1 : ℚ), 2, 3] : List ℚ).getD i 0) ∧
         ((i : Int) = 2 - 1 →
            out.getD i 0 =
              (([(1 : ℚ), 2, 3] : List ℚ).take (2 : Int).toNat).sum /
                ((2 : Int) : ℚ)) ∧
         ((i : Int) > 2 - 1 →
            out.getD i 0 =
              (([(1 : ℚ), 2, 3] : List ℚ).getD i 0 - out.getD (i - 1) 0) *
                  (2 / (((2 : Int) : ℚ) + 1)) +
                out.getD (i - 1) 0)) :=
  C1_calculate_ema_spec [(1 : ℚ), 2, 3] 2 (by decide)

/-- C2 witness: instantiated at `S = [1, 2, 3]`, `W = 2`. -/
theorem C2_witness :
    ∃ out, calculate_sma [(1 : ℚ), 2, 3] 2 = .ok out ∧
      out.length = ([(1 : ℚ), 2, 3] : List ℚ).length ∧
      ∀ i, i < ([(1 : ℚ), 2, 3] : List ℚ).length →
        (((([(1 : ℚ), 2, 3] : List ℚ).take (i + 1)).drop
              (i + 1 - (2 : Int).toNat)).length
            = min (i + 1) (2 : Int).toNat ∧
         out.getD i 0 =
            ((([(1 : ℚ), 2, 3] : List ℚ).take (i + 1)).drop
                (i + 1 - (2 : Int).toNat)).sum /
              ((min (i + 1) (2 : Int).toNat : Nat) : ℚ) ∧
         ((2 : Int) - 1 ≤ (i : Int) →
            out.getD i 0 =
              ((([(1 : ℚ), 2, 3] : List ℚ).drop
                    (i + 1 - (2 : Int).toNat)).take (2 : Int).toNat).sum /
                (((2 : Int)) : ℚ))) :=
  C2_calculate_sma_spec [(1 : ℚ), 2, 3] 2 (by decide)

/-! ### Annotator claims -/

/-- Strict date order on monthly rows. -/
def rowLt (a b : MonthlyRow) : Prop := dateLt a.date b.date

instance : IsTotal MonthlyRow rowLe :=
  ⟨by intro a b; unfold rowLe dateLe; omega⟩

instance : IsTrans MonthlyRow rowLe :=
  ⟨by intro a b c; unfold rowLe dateLe; omega⟩

instance : IsAntisymm MonthlyRow rowLt :=
  ⟨by intro a b h1 h2; exfalso; unfold rowLt dateLt at h1 h2; omega⟩

theorem map_base_add_technical (df : List MonthlyRow) :
    (add_technical_indicators df).map (fun r => r.toMonthlyRow)
      = sortByDate df := by
  unfold add_technical_indicators
  apply List.ext_getElem
  · simp
  · intro i h1 h2
    simp only [List.getElem_map, List.getElem_range]
    rw [List.getD_eq_getElem _ _ h2]

theorem sortByDate_sorted (l : List MonthlyRow) :
    List.Sorted rowLe (sortByDate l) :=
  List.sorted_insertionSort rowLe l

theorem sortByDate_perm (l : List MonthlyRow) : (sortByDate l).Perm l :=
  List.perm_insertionSort rowLe l

theorem pairwise_rowLt_of_sorted_nodup {l : List MonthlyRow}
    (hs : List.Sorted rowLe l)
    (hnd : (l.map (fun r => r.date)).Nodup) :
    List.Pairwise rowLt l := by
  have hne : List.Pairwise (fun a b : MonthlyRow => a.date ≠ b.date) l := by
    rw [List.Nodup, List.pairwise_map] at hnd
    exact hnd
  have := List.Pairwise.and hs hne
  refine this.imp ?_
  intro a b hab
  obtain ⟨hle, hne'⟩ := hab
  have hne'' : ¬ (a.date.year = b.date.year ∧ a.date.month = b.date.month ∧
      a.date.day = b.date.day) := by
    intro hc
    exact hne' (Date.ext hc.1 hc.2.1 hc.2.2)
  unfold rowLe dateLe at hle
  unfold rowLt dateLt
  omega

theorem sortByDate_eq_of_perm {l₁ l₂ : List MonthlyRow} (hp : l₁.Perm l₂)
    (hnd : (l₁.map (fun r => r.date)).Nodup) :
    sortByDate l₁ = sortByDate l₂ := by
  have hperm : (sortByDate l₁).Perm (sortByDate l₂) :=
    ((sortByDate_perm l₁).trans hp).trans (sortByDate_perm l₂).symm
  have hnd₁ : ((sortByDate l₁).map (fun r => r.date)).Nodup :=
    hnd.perm ((sortByDate_perm l₁).symm.map _)
  have hnd₂ : ((sortByDate l₂).map (fun r => r.date)).Nodup :=
    hnd₁.perm (hperm.map _)
  exact List.eq_of_perm_of_sorted hperm
    (pairwise_rowLt_of_sorted_nodup (sortByDate_sorted l₁) hnd₁)
    (pairwise_rowLt_of_sorted_nodup (sortByDate_sorted l₂) hnd₂)

theorem add_technical_sortByDate (l : List MonthlyRow) :
    add_technical_indicators (sortByDate l) = add_technical_indicators l := by
  unfold add_technical_indicators
  rw [show sortByDate (sortByDate l) = sortByDate l from
    (sortByDate_sorted l).insertionSort_eq]

/-- C7: annotation is idempotent and a pure function of the close-price
sequence: re-annotating the base rows of an annotated sequence reproduces
it exactly (same four indicator columns), and any reordering of the same
rows (with pairwise-distinct dates, the single-instrument invariant)
annotates to the identical output, because the input is sorted by date
first. -/
theorem C7_annotation_idempotent_pure (l₁ l₂ : List MonthlyRow)
    (hp : l₁.Perm l₂) (hnd : (l₁.map (fun r => r.date)).Nodup) :
    add_technical_indicators l₁ = add_technical_indicators l₂ ∧
      add_technical_indicators
          ((add_technical_indicators l₁).map (fun r => r.toMonthlyRow))
        = add_technical_indicators l₁ := by
  constructor
  · have hs := sortByDate_eq_of_perm hp hnd
    unfold add_technical_indicators
    rw [hs]
  · rw [map_base_add_technical, add_technical_sortByDate]

/-- C7 witness: two rows with distinct dates, swapped. -/
theorem C7_witness :
    add_technical_indicators
        [⟨"A", ⟨2020, 1, 31⟩, 1, 1, 1, 3, 1, 1⟩,
         ⟨"A", ⟨2020, 2, 29⟩, 1, 1, 1, 5, 1, 1⟩]
      = add_technical_indicators
        [⟨"A", ⟨2020, 2, 29⟩, 1, 1, 1, 5, 1, 1⟩,
         ⟨"A", ⟨2020, 1, 31⟩, 1, 1, 1, 3, 1, 1⟩] ∧
      add_technical_indicators
          ((add_technical_indicators
              [⟨"A", ⟨2020, 1, 31⟩, 1, 1, 1, 3, 1, 1⟩,
               ⟨"A", ⟨2020, 2, 29⟩, 1, 1, 1, 5, 1, 1⟩]).map
            (fun r => r.toMonthlyRow))
        = add_technical_indicators
            [⟨"A", ⟨2020, 1, 31⟩, 1, 1, 1, 3, 1, 1⟩,
             ⟨"A", ⟨2020, 2, 29⟩, 1, 1, 1, 5, 1, 1⟩] :=
  C7_annotation_idempotent_pure _ _ (by decide) (by decide)

/-- C9: on input already sorted by date ascending,
`add_technical_indicators` returns exactly the input rows, in order, with
every pre-existing field unchanged — projecting away the four added
indicator columns recovers the input (and the input itself, being a value
in a pure embedding, is not mutated). -/
theorem C9_annotator_preserves_rows (df : List MonthlyRow)
    (hs : List.Sorted rowLe df) :
    (add_technical_indicators df).map (fun r => r.toMonthlyRow) = df := by
  rw [map_base_add_technical]
  exact hs.insertionSort_eq

/-- C9 witness: a concrete sorted two-row input is recovered by the base
projection. -/
theorem C9_witness :
    (add_technical_indicators
        [⟨"A", ⟨2020, 1, 31⟩, 1, 1, 1, 3, 1, 1⟩,
         ⟨"A", ⟨2020, 2, 29⟩, 1, 1, 1, 5, 1, 1⟩]).map
      (fun r => r.toMonthlyRow)
      = [⟨"A", ⟨2020, 1, 31⟩, 1, 1, 1, 3, 1, 1⟩,
         ⟨"A", ⟨2020, 2, 29⟩, 1, 1, 1, 5, 1, 1⟩] :=
  C9_annotator_preserves_rows _ (by decide)

/-! ### Aggregator helper lemmas -/

theorem binAgg_ticker (t : String) (k : Nat) (g : List DailyRow) :
    (binAgg t k g).ticker = t := by
  cases g <;> rfl

theorem binAgg_date (t : String) (k : Nat) (g : List DailyRow) :
    (binAgg t k g).date = monthEndDate k := by
  cases g <;> rfl

theorem complete_binAgg_nil (t : String) (k : Nat) :
    complete (binAgg t k []) = false := rfl

theorem complete_binAgg_cons (t : String) (k : Nat) (h : DailyRow)
    (rest : List DailyRow) : complete (binAgg t k (h :: rest)) = true := rfl

theorem monthIdx_monthEndDate (k : Nat) : monthIdx (monthEndDate k) = k := by
  simp only [monthIdx, monthEndDate]
  omega

theorem mem_aggregatePreDrop {df : List DailyRow} {r : AggRow} :
    r ∈ aggregatePreDrop df ↔
      ∃ t ∈ tickersOf df,
        ∃ k ∈ monthSpan (df.filter (fun x => x.ticker == t)),
          r = binAgg t k ((df.filter (fun x => x.ticker == t)).filter
            (fun x => monthIdx x.date == k)) := by
  unfold aggregatePreDrop
  simp only [List.mem_flatMap]
  constructor
  · rintro ⟨t, ht, hr⟩
    obtain ⟨k, hk, hkeq⟩ := List.mem_map.mp hr
    exact ⟨t, ht, k, hk, hkeq.symm⟩
  · rintro ⟨t, ht, k, hk, rfl⟩
    exact ⟨t, ht, List.mem_map.mpr ⟨k, hk, rfl⟩⟩

theorem foldl_max_spec (l : List ℚ) : ∀ a : ℚ,
    (l.foldl max a = a ∨ l.foldl max a ∈ l) ∧ a ≤ l.foldl max a ∧
      ∀ x ∈ l, x ≤ l.foldl max a := by
  induction l with
  | nil => intro a; simp
  | cons y ys ih =>
    intro a
    obtain ⟨h1, h2, h3⟩ := ih (max a y)
    simp only [List.foldl_cons]
    refine ⟨?_, le_trans (le_max_left a y) h2, ?_⟩
    · rcases h1 with h | h
      · rw [h]
        rcases le_total y a with hya | hay
        · left; rw [max_eq_left hya]
        · right; rw [max_eq_right hay]; exact List.mem_cons_self _ _
      · right; exact List.mem_cons_of_mem _ h
    · intro x hx
      rcases List.mem_cons.mp hx with rfl | hx'
      · exact le_trans (le_max_right a x) h2
      · exact h3 x hx'

theorem foldl_min_spec (l : List ℚ) : ∀ a : ℚ,
    (l.foldl min a = a ∨ l.foldl min a ∈ l) ∧ l.foldl min a ≤ a ∧
      ∀ x ∈ l, l.foldl min a ≤ x := by
  induction l with
  | nil => intro a; simp
  | cons y ys ih =>
    intro a
    obtain ⟨h1, h2, h3⟩ := ih (min a y)
    simp only [List.foldl_cons]
    refine ⟨?_, le_trans h2 (min_le_left a y), ?_⟩
    · rcases h1 with h | h
      · rw [h]
        rcases le_total a y with hay | hya
        · left; rw [min_eq_left hay]
        · right; rw [min_eq_right hya]; exact List.mem_cons_self _ _
      · right; exact List.mem_cons_of_mem _ h
    · intro x hx
      rcases List.mem_cons.mp hx with rfl | hx'
      · exact le_trans h2 (min_le_right a x)
      · exact h3 x hx'

theorem foldl_add_volume (l : List DailyRow) :
    l.foldl (fun a r => a + r.volume) 0 = (l.map (fun r => r.volume)).sum := by
  rw [List.sum_eq_foldl, List.foldl_map]

theorem pairwise_head_spec {α : Type} {R : α → α → Prop} {y : α}
    {ys : List α} (hp : (y :: ys).Pairwise R) :
    ∀ x ∈ y :: ys, x = y ∨ R y x := by
  intro x hx
  rcases List.mem_cons.mp hx with rfl | hx'
  · exact Or.inl rfl
  · exact Or.inr ((List.pairwise_cons.mp hp).1 x hx')

theorem pairwise_getLast_spec {α : Type} {R : α → α → Prop} {l : List α}
    (hp : l.Pairwise R) (hne : l ≠ []) :
    ∀ x ∈ l, x = l.getLast hne ∨ R x (l.getLast hne) := by
  intro x hx
  rw [List.getLast_eq_getElem]
  obtain ⟨i, hi, rfl⟩ := List.mem_iff_getElem.mp hx
  have hlen : 0 < l.length := List.length_pos.mpr hne
  by_cases hil : i = l.length - 1
  · left; congr 1
  · right
    have hfin : i < l.length - 1 := by omega
    have := List.pairwise_iff_get.mp hp ⟨i, hi⟩ ⟨l.length - 1, by omega⟩
      (by simpa using hfin)
    simpa using this

/-! ### Aggregator claims C5 and C6 -/

/-- C5: `aggregate_monthly_ohlc` is total (it never errors on a candidate
partition with missing OHLC): every candidate row whose open/high/low/
close would be missing is silently dropped, so every emitted row has all
four present, and a calendar month with zero trading days for an
instrument yields no output record for that instrument and month. -/
theorem C5_missing_ohlc_dropped (df : List DailyRow) :
    (∀ r ∈ aggregate_monthly_ohlc df,
        r.open_.isSome = true ∧ r.high.isSome = true ∧
          r.low.isSome = true ∧ r.close.isSome = true) ∧
      (∀ t k,
        df.filter (fun x => x.ticker == t && (monthIdx x.date == k)) = [] →
          ∀ r ∈ aggregate_monthly_ohlc df,
            ¬(r.ticker = t ∧ monthIdx r.date = k)) := by
  constructor
  · intro r hr
    have hc : complete r = true := (List.mem_filter.mp hr).2
    unfold complete at hc
    simp only [Bool.and_eq_true] at hc
    exact ⟨hc.1.1.1, hc.1.1.2, hc.1.2, hc.2⟩
  · intro t k hempty r hr ⟨hticker, hmonth⟩
    obtain ⟨hpre, hc⟩ := List.mem_filter.mp hr
    obtain ⟨t', ht', k', hk', rfl⟩ := mem_aggregatePreDrop.mp hpre
    have ht : t' = t := by rw [← hticker, binAgg_ticker]
    have hk : k' = k := by
      rw [← hmonth, binAgg_date, monthIdx_monthEndDate]
    subst ht hk
    set b := (df.filter (fun x => x.ticker == t')).filter
      (fun x => monthIdx x.date == k') with hb
    have hbeq : b = df.filter (fun x => x.ticker == t' &&
        (monthIdx x.date == k')) := by
      rw [hb, List.filter_filter]
      exact List.filter_congr (fun x _ => Bool.and_comm _ _)
    rw [hbeq, hempty] at hc
    rw [complete_binAgg_nil] at hc
    exact Bool.false_ne_true hc

/-- C5 witness: for the one-ticker input with rows in January and March
2020 only, February 2020 (month index 24241) yields no output record, and
all emitted rows have complete OHLC. -/
theorem C5_witness :
    (∀ r ∈ aggregate_monthly_ohlc
        [⟨"A", ⟨2020, 1, 15⟩, 10, 12, 9, 11, 11, 100⟩,
         ⟨"A", ⟨2020, 3, 10⟩, 20, 21, 19, 20, 20, 70⟩],
        r.open_.isSome = true ∧ r.high.isSome = true ∧
          r.low.isSome = true ∧ r.close.isSome = true) ∧
      (∀ r ∈ aggregate_monthly_ohlc
        [⟨"A", ⟨2020, 1, 15⟩, 10, 12, 9, 11, 11, 100⟩,
         ⟨"A", ⟨2020, 3, 10⟩, 20, 21, 19, 20, 20, 70⟩],
        ¬(r.ticker = "A" ∧ monthIdx r.date = 24241)) :=
  ⟨(C5_missing_ohlc_dropped _).1,
    (C5_missing_ohlc_dropped _).2 "A" 24241 (by decide)⟩

/-- C6 counterexample: a well-formed input (all fields present, strictly
chronological within its one instrument) whose instrument skips February
2020: the pre-filter aggregation contains a February row with missing
open/high/low/close, so the defensive drop removes a row — the filter is
reachable and not a no-op. -/
theorem C6_counterexample :
    ([⟨"A", ⟨2020, 1, 15⟩, 10, 12, 9, 11, 11, 100⟩,
      (⟨"A", ⟨2020, 3, 10⟩, 20, 21, 19, 20, 20, 70⟩ : DailyRow)].Pairwise
        (fun a b => a.ticker = b.ticker → dateLt a.date b.date)) ∧
      (⟨"A", ⟨2020, 2, 29⟩, none, none, none, none, none, 0⟩ : AggRow) ∈
        aggregatePreDrop
          [⟨"A", ⟨2020, 1, 15⟩, 10, 12, 9, 11, 11, 100⟩,
           ⟨"A", ⟨2020, 3, 10⟩, 20, 21, 19, 20, 20, 70⟩] ∧
      aggregate_monthly_ohlc
          [⟨"A", ⟨2020, 1, 15⟩, 10, 12, 9, 11, 11, 100⟩,
           ⟨"A", ⟨2020, 3, 10⟩, 20, 21, 19, 20, 20, 70⟩]
        ≠ aggregatePreDrop
          [⟨"A", ⟨2020, 1, 15⟩, 10, 12, 9, 11, 11, 100⟩,
           ⟨"A", ⟨2020, 3, 10⟩, 20, 21, 19, 20, 20, 70⟩] := by
  refine ⟨by decide, by decide, by decide⟩

/-- C6 amended: the defensive drop is a no-op exactly when no instrument
has a calendar-month gap: if every resample bin of every instrument's
month span contains at least one daily row, then every pre-filter row has
complete OHLC and `aggregate_monthly_ohlc` equals the pre-filter
aggregation. (Well-formedness alone does not give this: a gap month
yields a candidate row with missing OHLC, which the filter drops.) -/
theorem C6_drop_noop_without_gap_months (df : List DailyRow)
    (hfull : ∀ t ∈ tickersOf df,
      ∀ k ∈ monthSpan (df.filter (fun x => x.ticker == t)),
        (df.filter (fun x => x.ticker == t)).filter
          (fun x => monthIdx x.date == k) ≠ []) :
    aggregate_monthly_ohlc df = aggregatePreDrop df := by
  unfold aggregate_monthly_ohlc
  rw [List.filter_eq_self]
  intro r hr
  obtain ⟨t, ht, k, hk, rfl⟩ := mem_aggregatePreDrop.mp hr
  rcases hcase : (df.filter (fun x => x.ticker == t)).filter
      (fun x => monthIdx x.date == k) with _ | ⟨h, rest⟩
  · exact absurd hcase (hfull t ht k hk)
  · rw [hcase, complete_binAgg_cons]

/-- C6 amended witness: with January and February 2020 rows (no gap) the
filter removes nothing. -/
theorem C6_witness :
    aggregate_monthly_ohlc
        [⟨"A", ⟨2020, 1, 15⟩, 10, 12, 9, 11, 11, 100⟩,
         ⟨"A", ⟨2020, 2, 10⟩, 20, 21, 19, 20, 20, 70⟩]
      = aggregatePreDrop
        [⟨"A", ⟨2020, 1, 15⟩, 10, 12, 9, 11, 11, 100⟩,
         ⟨"A", ⟨2020, 2, 10⟩, 20, 21, 19, 20, 20, 70⟩] :=
  C6_drop_noop_without_gap_months _ (by decide)

/-! ### Aggregator claim C8: output order -/

theorem pairwise_flatMap {α β : Type} {R : β → β → Prop} {f : α → List β} :
    ∀ {l : List α}, l.Pairwise (fun x y => ∀ a ∈ f x, ∀ b ∈ f y, R a b) →
      (∀ x ∈ l, (f x).Pairwise R) → (l.flatMap f).Pairwise R := by
  intro l
  induction l with
  | nil => intro _ _; simp
  | cons x xs ih =>
    intro hp hin
    rw [List.flatMap_cons, List.pairwise_append]
    obtain ⟨hx, hxs⟩ := List.pairwise_cons.mp hp
    refine ⟨hin x (List.mem_cons_self _ _),
      ih hxs (fun y hy => hin y (List.mem_cons_of_mem _ hy)), ?_⟩
    intro a ha b hb
    obtain ⟨y, hy, hby⟩ := List.mem_flatMap.mp hb
    exact hx y hy a ha b hby

theorem tickersOf_pairwise_lt (df : List DailyRow) :
    (tickersOf df).Pairwise (· < ·) := by
  unfold tickersOf
  have hs : List.Sorted (· ≤ ·)
      (List.insertionSort (· ≤ ·) (df.map (fun r => r.ticker)).dedup) :=
    List.sorted_insertionSort _ _
  have hnd : (List.insertionSort (· ≤ ·)
      (df.map (fun r => r.ticker)).dedup).Nodup :=
    (List.nodup_dedup _).perm (List.perm_insertionSort _ _).symm
  exact (List.Pairwise.and hs hnd).imp (fun h => lt_of_le_of_ne h.1 h.2)

theorem pairwise_lt_range'_one (s n : Nat) :
    (List.range' s n).Pairwise (· < ·) := by
  rw [List.pairwise_iff_get]
  intro i j hij
  simp only [List.get_eq_getElem, List.getElem_range'_1]
  have : (i : Nat) < (j : Nat) := hij
  omega

theorem monthSpan_pairwise (g : List DailyRow) :
    (monthSpan g).Pairwise (· < ·) := by
  cases g with
  | nil => simp [monthSpan]
  | cons h rest => exact pairwise_lt_range'_one _ _

/-- C8: for input pre-sorted by instrument then date, the output of
`aggregate_monthly_ohlc` is strictly ordered by (instrument, month): all
rows of one instrument are contiguous (instruments in ascending key
order, as `groupby` sorts its keys) and within an instrument months are
strictly ascending. -/
theorem C8_output_order (df : List DailyRow)
    (_hsort : df.Pairwise (fun a b =>
      a.ticker < b.ticker ∨ (a.ticker = b.ticker ∧ dateLt a.date b.date))) :
    (aggregate_monthly_ohlc df).Pairwise (fun a b =>
      a.ticker < b.ticker ∨
        (a.ticker = b.ticker ∧ monthIdx a.date < monthIdx b.date)) := by
  apply List.Pairwise.sublist (List.filter_sublist _)
  unfold aggregatePreDrop
  apply pairwise_flatMap
  · refine (tickersOf_pairwise_lt df).imp ?_
    intro t₁ t₂ ht a ha b hb
    obtain ⟨k₁, _, hk₁⟩ := List.mem_map.mp ha
    obtain ⟨k₂, _, hk₂⟩ := List.mem_map.mp hb
    left
    rw [← hk₁, ← hk₂, binAgg_ticker, binAgg_ticker]
    exact ht
  · intro t _
    rw [List.pairwise_map]
    refine (monthSpan_pairwise _).imp ?_
    intro k₁ k₂ hk
    right
    refine ⟨by rw [binAgg_ticker, binAgg_ticker], ?_⟩
    rw [binAgg_date, binAgg_date, monthIdx_monthEndDate, monthIdx_monthEndDate]
    exact hk

/-- C8 witness: a two-ticker, two-month sorted input instantiates the
ordering theorem. -/
theorem C8_witness :
    (aggregate_monthly_ohlc
        [⟨"A", ⟨2020, 1, 15⟩, 10, 12, 9, 11, 11, 100⟩,
         ⟨"A", ⟨2020, 2, 10⟩, 20, 21, 19, 20, 20, 70⟩,
         ⟨"B", ⟨2020, 1, 20⟩, 1, 2, 0, 1, 1, 5⟩]).Pairwise (fun a b =>
      a.ticker < b.ticker ∨
        (a.ticker = b.ticker ∧ monthIdx a.date < monthIdx b.date)) :=
  C8_output_order _ (by
    have hAB : "A" < "B" := by rw [String.lt_iff_toList_lt]; decide
    refine List.Pairwise.cons ?_
      (List.Pairwise.cons ?_ (List.Pairwise.cons ?_ List.Pairwise.nil))
    · intro a ha
      rcases List.mem_cons.mp ha with rfl | ha
      · exact Or.inr ⟨rfl, by decide⟩
      · rcases List.mem_cons.mp ha with rfl | ha
        · exact Or.inl hAB
        · simp at ha
    · intro a ha
      rcases List.mem_cons.mp ha with rfl | ha
      · exact Or.inl hAB
      · simp at ha
    · intro a ha
      simp at ha)

/-! ### Aggregator claim C3: field correctness -/

/-- C3: for input sorted chronologically within each instrument (with
valid calendar months, as parsed timestamps always are), every output row
of `aggregate_monthly_ohlc` takes its open from the chronologically first
daily row of its (instrument, calendar month) group, close and adjclose
from the chronologically last, high/low as the group max/min, volume as
the group sum, and its date is the calendar month-end of that month. -/
theorem C3_monthly_ohlc_fields (df : List DailyRow)
    (hsort : df.Pairwise (fun a b =>
      a.ticker = b.ticker → dateLt a.date b.date))
    (hvalid : ∀ x ∈ df, validMonth x.date) :
    ∀ r ∈ aggregate_monthly_ohlc df,
      ∃ (g : List DailyRow) (hne : g ≠ []),
        g = df.filter (fun x => x.ticker == r.ticker &&
            (x.date.year == r.date.year && x.date.month == r.date.month)) ∧
        r.open_ = some (g.head hne).open_ ∧
        (∀ x ∈ g, x = g.head hne ∨ dateLt (g.head hne).date x.date) ∧
        r.close = some (g.getLast hne).close ∧
        r.adjclose = some (g.getLast hne).adjclose ∧
        (∀ x ∈ g, x = g.getLast hne ∨ dateLt x.date (g.getLast hne).date) ∧
        (∃ m, r.high = some m ∧ m ∈ g.map (fun x => x.high) ∧
          ∀ x ∈ g, x.high ≤ m) ∧
        (∃ m, r.low = some m ∧ m ∈ g.map (fun x => x.low) ∧
          ∀ x ∈ g, m ≤ x.low) ∧
        r.volume = (g.map (fun x => x.volume)).sum ∧
        r.date.day = daysInMonth r.date.year r.date.month := by
  intro r hr
  obtain ⟨hpre, hcomp⟩ := List.mem_filter.mp hr
  obtain ⟨t, _, k, _, hreq⟩ := mem_aggregatePreDrop.mp hpre
  have hBg : (df.filter (fun x => x.ticker == t)).filter
      (fun x => monthIdx x.date == k)
      = df.filter (fun x => x.ticker == t &&
        (x.date.year == k / 12 && x.date.month == k % 12 + 1)) := by
    rw [List.filter_filter]
    refine List.filter_congr ?_
    intro x hx
    have hv := hvalid x hx
    unfold validMonth at hv
    rcases hxt : (x.ticker == t) with _ | _
    · simp [hxt]
    · simp only [hxt, Bool.and_true, Bool.true_and]
      rw [Bool.eq_iff_iff]
      simp only [beq_iff_eq, Bool.and_eq_true]
      unfold monthIdx
      omega
  have hsub : ((df.filter (fun x => x.ticker == t)).filter
      (fun x => monthIdx x.date == k)).Sublist df :=
    (List.filter_sublist _).trans (List.filter_sublist _)
  have htick : ∀ x ∈ (df.filter (fun x => x.ticker == t)).filter
      (fun x => monthIdx x.date == k), x.ticker = t := by
    intro x hx
    exact beq_iff_eq.mp (List.mem_filter.mp (List.mem_filter.mp hx).1).2
  have hpDate : ((df.filter (fun x => x.ticker == t)).filter
      (fun x => monthIdx x.date == k)).Pairwise
        (fun a b => dateLt a.date b.date) := by
    refine (List.Pairwise.sublist hsub hsort).imp_of_mem ?_
    intro a b ha hb h
    exact h ((htick _ ha).trans (htick _ hb).symm)
  rcases hcase : (df.filter (fun x => x.ticker == t)).filter
      (fun x => monthIdx x.date == k) with _ | ⟨h0, rest⟩
  · rw [hcase] at hreq
    rw [hreq, complete_binAgg_nil] at hcomp
    exact absurd hcomp Bool.false_ne_true
  · rw [hcase] at hreq hBg hpDate
    subst hreq
    refine ⟨h0 :: rest, List.cons_ne_nil _ _, ?_, ?_, ?_, ?_, ?_, ?_, ?_, ?_,
      ?_, ?_⟩
    · rw [hBg]
      refine (List.filter_congr ?_).symm
      intro x _
      rw [binAgg_ticker]
      rw [binAgg_date]
      rfl
    · rfl
    · intro x hx
      simpa using pairwise_head_spec hpDate x hx
    · rfl
    · rfl
    · exact pairwise_getLast_spec hpDate (List.cons_ne_nil _ _)
    · refine ⟨_, rfl, ?_, ?_⟩
      · have heqM : (rest.map (fun x => x.high)).foldl max h0.high
            = rest.foldl (fun a x => max a x.high) h0.high :=
          List.foldl_map _ _ _ _
        obtain ⟨hmem, _, _⟩ := foldl_max_spec (rest.map (fun x => x.high)) h0.high
        rw [heqM] at hmem
        rcases hmem with h | h
        · rw [h, List.map_cons]
          exact List.mem_cons_self _ _
        · rw [List.map_cons]
          exact List.mem_cons_of_mem _ h
      · intro x hx
        have heqM : (rest.map (fun x => x.high)).foldl max h0.high
            = rest.foldl (fun a x => max a x.high) h0.high :=
          List.foldl_map _ _ _ _
        obtain ⟨_, hbase, hbound⟩ :=
          foldl_max_spec (rest.map (fun x => x.high)) h0.high
        rw [heqM] at hbase hbound
        rcases List.mem_cons.mp hx with rfl | hx'
        · exact hbase
        · exact hbound x.high (List.mem_map.mpr ⟨x, hx', rfl⟩)
    · refine ⟨_, rfl, ?_, ?_⟩
      · have heqM : (rest.map (fun x => x.low)).foldl min h0.low
            = rest.foldl (fun a x => min a x.low) h0.low :=
          List.foldl_map _ _ _ _
        obtain ⟨hmem, _, _⟩ := foldl_min_spec (rest.map (fun x => x.low)) h0.low
        rw [heqM] at hmem
        rcases hmem with h | h
        · rw [h, List.map_cons]
          exact List.mem_cons_self _ _
        · rw [List.map_cons]
          exact List.mem_cons_of_mem _ h
      · intro x hx
        have heqM : (rest.map (fun x => x.low)).foldl min h0.low
            = rest.foldl (fun a x => min a x.low) h0.low :=
          List.foldl_map _ _ _ _
        obtain ⟨_, hbase, hbound⟩ :=
          foldl_min_spec (rest.map (fun x => x.low)) h0.low
        rw [heqM] at hbase hbound
        rcases List.mem_cons.mp hx with rfl | hx'
        · exact hbase
        · exact hbound x.low (List.mem_map.mpr ⟨x, hx', rfl⟩)
    · exact foldl_add_volume (h0 :: rest)
    · rfl

/-- C3 witness: instantiated at a concrete sorted two-day, one-month
input and its single output row (January 2020, month end the 31st). -/
theorem C3_witness :
    ∃ (g : List DailyRow) (hne : g ≠ []),
      g = [⟨"A", ⟨2020, 1, 15⟩, 10, 12, 9, 11, 11, 100⟩,
           (⟨"A", ⟨2020, 1, 20⟩, 11, 15, 10, 14, 14, 50⟩ : DailyRow)].filter
          (fun x => x.ticker == (⟨"A", ⟨2020, 1, 31⟩, some 10, some 15,
              some 9, some 14, some 14, 150⟩ : AggRow).ticker &&
            (x.date.year == (2020 : Nat) && x.date.month == (1 : Nat))) ∧
      (⟨"A", ⟨2020, 1, 31⟩, some 10, some 15, some 9, some 14, some 14,
          150⟩ : AggRow).open_ = some (g.head hne).open_ ∧
      (∀ x ∈ g, x = g.head hne ∨ dateLt (g.head hne).date x.date) ∧
      (⟨"A", ⟨2020, 1, 31⟩, some 10, some 15, some 9, some 14, some 14,
          150⟩ : AggRow).close = some (g.getLast hne).close ∧
      (⟨"A", ⟨2020, 1, 31⟩, some 10, some 15, some 9, some 14, some 14,
          150⟩ : AggRow).adjclose = some (g.getLast hne).adjclose ∧
      (∀ x ∈ g, x = g.getLast hne ∨ dateLt x.date (g.getLast hne).date) ∧
      (∃ m, (⟨"A", ⟨2020, 1, 31⟩, some 10, some 15, some 9, some 14,
          some 14, 150⟩ : AggRow).high = some m ∧
        m ∈ g.map (fun x => x.high) ∧ ∀ x ∈ g, x.high ≤ m) ∧
      (∃ m, (⟨"A", ⟨2020, 1, 31⟩, some 10, some 15, some 9, some 14,
          some 14, 150⟩ : AggRow).low = some m ∧
        m ∈ g.map (fun x => x.low) ∧ ∀ x ∈ g, m ≤ x.low) ∧
      (⟨"A", ⟨2020, 1, 31⟩, some 10, some 15, some 9, some 14, some 14,
          150⟩ : AggRow).volume = (g.map (fun x => x.volume)).sum ∧
      (⟨"A", ⟨2020, 1, 31⟩, some 10, some 15, some 9, some 14, some 14,
          150⟩ : AggRow).date.day
        = daysInMonth 2020 1 :=
  C3_monthly_ohlc_fields _ (by decide) (by decide)
    ⟨"A", ⟨2020, 1, 31⟩, some 10, some 15, some 9, some 14, some 14, 150⟩
    (by decide)

end Stock
